import Mathlib

set_option maxRecDepth 10000

/-!
Shallow embedding of the two AWS Lambda handlers of this repository
(`UploadFunction.py`, `PollyFunction.py`), centred on the hand-rolled
multipart/form-data parser `parse_multipart_form_data`.

Representation choices:
* Python `bytes` values are `List Nat` (each element a byte value 0..255).
* Python `str` values are `List Nat` of Unicode code points; `cp` transcribes
  a literal.  All strings appearing in the claims are sequences of Unicode
  scalar values (the image of UTF-8 decoding), captured by `isScalarStr`.
* `bytes.decode()` / `str.encode()` are a strict UTF-8 decoder/encoder
  (`utf8Decode`, `utf8Encode`), rejecting overlong forms, surrogates and
  out-of-range points exactly as CPython does.
* The two `re.search` calls are modelled by deterministic leftmost scanners
  (`searchBoundary`, `searchDisp`) that reproduce the backtracking outcome of
  the concrete patterns `boundary=([^;]+)` and
  `Content-Disposition: form-data; name="([^"]+)"(?:; filename="([^"]+)")?`.
* A Python dict is an insertion-ordered association list with in-place
  overwrite (`pySet`) and lookup (`pyGet`).
* The Lambda handlers are modelled up to the point where they hand off to the
  external AWS services (S3/DynamoDB/Polly); an `upload`/`synthesize` outcome
  means "validation passed, external call issued". Error responses carry the
  numeric status code from the source and a tag for the raising site.
-/

/-- Unicode code points of a Lean string literal; transcribes the Python
source's `str` literals. -/
def cp (s : String) : List Nat := s.data.map Char.toNat

/-- A Unicode scalar value: a code point that is not a surrogate and is in
range.  Python `str` objects obtained by decoding transport data consist of
scalar values only, and `str.encode()` raises on anything else. -/
def isScalar (n : Nat) : Bool :=
  decide (n < 55296) || (decide (57344 ≤ n) && decide (n < 1114112))

/-- All code points of the string are Unicode scalar values. -/
def isScalarStr (l : List Nat) : Bool := l.all isScalar

/-- UTF-8 encoding of one scalar value (the byte sequence CPython's
`str.encode()` produces for it). -/
def utf8EncodeChar (n : Nat) : List Nat :=
  if n < 128 then [n]
  else if n < 2048 then [192 + n / 64, 128 + n % 64]
  else if n < 65536 then [224 + n / 4096, 128 + n / 64 % 64, 128 + n % 64]
  else [240 + n / 262144, 128 + n / 4096 % 64, 128 + n / 64 % 64, 128 + n % 64]

/-- UTF-8 encoding of a string of code points; models `str.encode()`. -/
def utf8Encode : List Nat → List Nat
  | [] => []
  | c :: cs => utf8EncodeChar c ++ utf8Encode cs

/-- One step of strict UTF-8 decoding: the code point encoded at the head of
the byte sequence and the number of bytes it occupies, or `none` on invalid
input.  Overlong encodings, surrogates (U+D800..U+DFFF) and points above
U+10FFFF are rejected, as in CPython. -/
def utf8DecodeOne : List Nat → Option (Nat × Nat)
  | [] => none
  | b :: bs =>
    if b < 128 then some (b, 1)
    else if b < 194 then none
    else if b < 224 then
      match bs with
      | b2 :: _ =>
        if 128 ≤ b2 ∧ b2 < 192 then some ((b - 192) * 64 + (b2 - 128), 2)
        else none
      | [] => none
    else if b < 240 then
      match bs with
      | b2 :: b3 :: _ =>
        if (if b = 224 then 160 ≤ b2 ∧ b2 < 192
            else if b = 237 then 128 ≤ b2 ∧ b2 < 160
            else 128 ≤ b2 ∧ b2 < 192) ∧ 128 ≤ b3 ∧ b3 < 192 then
          some ((b - 224) * 4096 + (b2 - 128) * 64 + (b3 - 128), 3)
        else none
      | _ => none
    else if b < 245 then
      match bs with
      | b2 :: b3 :: b4 :: _ =>
        if (if b = 240 then 144 ≤ b2 ∧ b2 < 192
            else if b = 244 then 128 ≤ b2 ∧ b2 < 144
            else 128 ≤ b2 ∧ b2 < 192) ∧
            128 ≤ b3 ∧ b3 < 192 ∧ 128 ≤ b4 ∧ b4 < 192 then
          some ((b - 240) * 262144 + (b2 - 128) * 4096 + (b3 - 128) * 64 +
            (b4 - 128), 4)
        else none
      | _ => none
    else none

/-- Fuel-driven decoding loop: each step consumes at least one byte, so fuel
equal to the byte count suffices (`utf8DecodeAux_fuel_eq`). -/
def utf8DecodeAux : Nat → List Nat → Option (List Nat)
  | _, [] => some []
  | 0, _ :: _ => none
  | fuel + 1, b :: bs =>
    match utf8DecodeOne (b :: bs) with
    | none => none
    | some (c, k) =>
      (utf8DecodeAux fuel (bs.drop (k - 1))).map (fun cs => c :: cs)

/-- Strict UTF-8 decoding of a byte sequence; models `bytes.decode()`.
`none` corresponds to a `UnicodeDecodeError`. -/
def utf8Decode (l : List Nat) : Option (List Nat) := utf8DecodeAux l.length l

/-- `bs.rstrip(b"\r\n")`: remove every trailing byte that is CR (13) or
LF (10), in any order and number. -/
def rstripCRLF (bs : List Nat) : List Nat :=
  (bs.reverse.dropWhile (fun b => b == 13 || b == 10)).reverse

/-- `sep` occurs as a contiguous subsequence of `l` (at any position). -/
def hasOccur (sep l : List Nat) : Bool :=
  (List.range (l.length + 1)).any (fun i => sep.isPrefixOf (l.drop i))

/-- No occurrence of `sep` starts strictly inside `a` when `a` is followed by
`sep` itself: the condition under which `a ++ sep ++ rest` splits at the
inserted separator. -/
def cleanChunk (sep a : List Nat) : Bool :=
  (List.range a.length).all (fun i => !(sep.isPrefixOf ((a ++ sep).drop i)))

/-- Fuel-driven splitting loop: each step moves past at least one byte, so
fuel equal to the byte count suffices (`splitOnSepAux_fuel_eq`). -/
def splitOnSepAux (s0 : Nat) (sr : List Nat) : Nat → List Nat → List (List Nat)
  | _, [] => [[]]
  | 0, b :: bs => [b :: bs]
  | fuel + 1, b :: bs =>
    if (s0 :: sr).isPrefixOf (b :: bs) then
      [] :: splitOnSepAux s0 sr fuel (bs.drop sr.length)
    else
      match splitOnSepAux s0 sr fuel bs with
      | [] => [[b]]
      | x :: xs => (b :: x) :: xs

/-- `body.split(sep)` for a non-empty separator `s0 :: sr`: split on
non-overlapping occurrences, scanning left to right (CPython `bytes.split`). -/
def splitOnSepNE (s0 : Nat) (sr : List Nat) (l : List Nat) :
    List (List Nat) :=
  splitOnSepAux s0 sr l.length l

/-- `part.split(sep, 1)` followed by unpacking into exactly two pieces:
`some (before, after)` at the first occurrence of `sep`, `none` when `sep`
does not occur (the Python unpacking then raises `ValueError`). -/
def splitOnce (sep : List Nat) : List Nat → Option (List Nat × List Nat)
  | [] => none
  | b :: bs =>
    if sep.isPrefixOf (b :: bs) then some ([], (b :: bs).drop sep.length)
    else
      match splitOnce sep bs with
      | none => none
      | some (x, y) => some (b :: x, y)

/-- A decoded form field: either a plain decoded string value or a file
record `{'filename': ..., 'content': ...}` (filename as code points, content
as bytes). -/
inductive FieldValue where
  | str : List Nat → FieldValue
  | file : List Nat → List Nat → FieldValue
deriving DecidableEq, Repr

/-- Python dict assignment `d[k] = v` on an insertion-ordered association
list: overwrite in place when the key exists, append otherwise. -/
def pySet {β : Type} (d : List (List Nat × β)) (k : List Nat) (v : β) :
    List (List Nat × β) :=
  if d.any (fun p => p.1 == k) then
    d.map (fun p => if p.1 == k then (k, v) else p)
  else d ++ [(k, v)]

/-- Python dict lookup `d.get(k)` / `d[k]` (with `none` for a missing key). -/
def pyGet {β : Type} : List (List Nat × β) → List Nat → Option β
  | [], _ => none
  | (k, v) :: d, key => if k == key then some v else pyGet d key

/-- The literal `Content-Disposition: form-data; name="` of the header
regex. -/
def lit1 : List Nat := cp "Content-Disposition: form-data; name=\""

/-- The literal `; filename="` of the optional group of the header regex. -/
def lit2 : List Nat := cp "; filename=\""

/-- Attempt of the pattern
`Content-Disposition: form-data; name="([^"]+)"(?:; filename="([^"]+)")?`
anchored at the start of `cs`; returns the captured name and optional
filename.  Reproduces the regex backtracking outcome: the name run is the
maximal non-quote run and must be non-empty and closed by a quote; the
optional filename group contributes only when `; filename="` follows
immediately with a non-empty quoted run, and otherwise matches empty. -/
def matchDispAt (cs : List Nat) : Option (List Nat × Option (List Nat)) :=
  if lit1.isPrefixOf cs then
    let r1 := cs.drop lit1.length
    let nm := r1.takeWhile (fun c => c != 34)
    if nm.isEmpty then none
    else if (r1.drop nm.length).head? = some 34 then
      let r2 := (r1.drop nm.length).drop 1
      if lit2.isPrefixOf r2 then
        let r3 := r2.drop lit2.length
        let fn := r3.takeWhile (fun c => c != 34)
        if fn.isEmpty then some (nm, none)
        else if (r3.drop fn.length).head? = some 34 then some (nm, some fn)
        else some (nm, none)
      else some (nm, none)
    else none
  else none

/-- `re.search` of the Content-Disposition pattern: leftmost position where
`matchDispAt` succeeds. -/
def searchDisp : List Nat → Option (List Nat × Option (List Nat))
  | [] => none
  | c :: cs =>
    match matchDispAt (c :: cs) with
    | some r => some r
    | none => searchDisp cs

/-- The literal of the boundary regex `boundary=([^;]+)`. -/
def boundaryLit : List Nat := cp "boundary="

/-- `re.search(r"boundary=([^;]+)", content_type)`: at the leftmost position
where `boundary=` is followed by at least one non-semicolon character,
capture the maximal run of non-semicolon characters. -/
def searchBoundary : List Nat → Option (List Nat)
  | [] => none
  | c :: cs =>
    if boundaryLit.isPrefixOf (c :: cs) then
      match ((c :: cs).drop boundaryLit.length).takeWhile (fun x => x != 59) with
      | [] => searchBoundary cs
      | b => some b
    else searchBoundary cs

/-- The blank-line separator `b"\r\n\r\n"` between a part's header block and
its payload. -/
def crlf2 : List Nat := [13, 10, 13, 10]

/-- Processing of one fragment of the body split, mirroring the `try` block
of the source's per-part loop: any failure (no blank line, header decode
error, no disposition match, payload decode error) leaves the accumulated
fields unchanged (the exception is caught / `continue` is taken). -/
def processPart (fields : List (List Nat × FieldValue)) (part : List Nat) :
    List (List Nat × FieldValue) :=
  match splitOnce crlf2 part with
  | none => fields
  | some (hdrBytes, partBody) =>
    match utf8Decode hdrBytes with
    | none => fields
    | some hdrTxt =>
      match searchDisp hdrTxt with
      | none => fields
      | some (nm, some fn) => pySet fields nm (.file fn (rstripCRLF partBody))
      | some (nm, none) =>
        match utf8Decode (rstripCRLF partBody) with
        | none => fields
        | some v => pySet fields nm (.str v)

/-- `body.split(b"--" + boundary.encode())[1:-1]`: the fragments iterated by
the per-part loop (first and last fragments discarded). -/
def middleParts (boundary body : List Nat) : List (List Nat) :=
  ((splitOnSepNE 45 (45 :: utf8Encode boundary) body).drop 1).dropLast

/-- `parse_multipart_form_data(body, content_type)` of `UploadFunction.py`:
a missing boundary parameter raises `ValueError` (the `error` case); with a
boundary, the middle fragments are folded through `processPart` and the
accumulated mapping is returned. -/
def parse_multipart_form_data (body content_type : List Nat) :
    Except (List Nat) (List (List Nat × FieldValue)) :=
  match searchBoundary content_type with
  | none => Except.error (cp "Invalid Content-Type header: missing boundary")
  | some boundary => Except.ok ((middleParts boundary body).foldl processPart [])

/-- The decode succeeded (no exception escaped the call). -/
def isOkE {ε α : Type} : Except ε α → Bool
  | .ok _ => true
  | .error _ => false

/-- The byte / code-point sequence ends with the two-element CRLF sequence. -/
def endsWithCRLF (l : List Nat) : Bool := List.isSuffixOf [13, 10] l

/-- Neither kind of decoded field value ends with a trailing CRLF sequence. -/
def fieldNoCRLF : FieldValue → Bool
  | .file _ content => !(endsWithCRLF content)
  | .str s => !(endsWithCRLF s)

/-- ASCII lowercasing of one code point, for `k.lower()` on the ASCII header
names the handler receives. -/
def lowerAscii (c : Nat) : Nat := if 65 ≤ c ∧ c ≤ 90 then c + 32 else c

/-- `{k.lower(): v for k, v in event['headers'].items()}`. -/
def lowerHeaders (hs : List (List Nat × List Nat)) :
    List (List Nat × List Nat) :=
  hs.foldl (fun d kv => pySet d (kv.1.map lowerAscii) kv.2) []

/-- The parts of the API-Gateway event read by the upload handler. -/
structure UploadEvent where
  body : List Nat
  headers : List (List Nat × List Nat)

/-- The site at which the upload handler's `try` block raised; every raise is
answered by the single `except` branch with `'statusCode': 500`. -/
inductive UploadErr where
  | missingContentType
  | missingBoundary
  | missingFile
  | fieldNotFile
  | emptyContent
deriving DecidableEq, Repr

/-- Outcome of the upload handler's validation phase: an error response with
its numeric status code, or progression to the external S3/DynamoDB calls
with the extracted filename and content. -/
inductive UploadStep where
  | response (status : Nat) (err : UploadErr)
  | upload (filename content : List Nat)
deriving DecidableEq, Repr

/-- `lambda_handler` of `UploadFunction.py` up to the S3 upload: body is
encoded to bytes, headers are lowercased, the content type is required and
fed to the multipart parser, the `file` field must exist, be a file record
and have non-empty content.  Every raise lands in the `except Exception`
branch, which returns status 500. -/
def lambda_handler_upload (ev : UploadEvent) : UploadStep :=
  match pyGet (lowerHeaders ev.headers) (cp "content-type") with
  | none => .response 500 .missingContentType
  | some ct =>
    if ct.isEmpty then .response 500 .missingContentType
    else
      match parse_multipart_form_data (utf8Encode ev.body) ct with
      | .error _ => .response 500 .missingBoundary
      | .ok fields =>
        match pyGet fields (cp "file") with
        | none => .response 500 .missingFile
        | some (.str _) => .response 500 .fieldNotFile
        | some (.file fn content) =>
          if content.isEmpty then .response 500 .emptyContent
          else .upload fn content

/-- Outcome of the Polly handler's validation phase: a 400 response naming
the missing event key (the `except KeyError` branch), or progression to the
Polly synthesis call; `none` as output file means the `or`-generated uuid
name. -/
inductive PollyStep where
  | response (status : Nat) (missingKey : List Nat)
  | synthesize (text : List Nat) (outputFile : Option (List Nat))
deriving DecidableEq, Repr

/-- `lambda_handler` of `PollyFunction.py` up to the Polly call: the event
keys `translated_text`, `bucket`, `output_file` are read in order; a missing
key raises `KeyError`, answered with status 400. -/
def lambda_handler_polly (event : List (List Nat × List Nat)) : PollyStep :=
  match pyGet event (cp "translated_text") with
  | none => .response 400 (cp "translated_text")
  | some tt =>
    match pyGet event (cp "bucket") with
    | none => .response 400 (cp "bucket")
    | some _ =>
      match pyGet event (cp "output_file") with
      | none => .response 400 (cp "output_file")
      | some ofn => .synthesize tt (if ofn.isEmpty then none else some ofn)

/-- The status code is a client error (4xx). -/
def is4xx (s : Nat) : Bool := decide (400 ≤ s) && decide (s < 500)

/-- A wire-format part fragment as it appears between two boundary markers:
leading CRLF, encoded header line, blank-line separator, payload, trailing
CRLF. -/
def mkFrag (hdrCp payload : List Nat) : List Nat :=
  (13 :: 10 :: utf8Encode hdrCp) ++ crlf2 ++ (payload ++ [13, 10])

/-- The fixed test content type `multipart/form-data; boundary=B`. -/
def ctB : List Nat := cp "multipart/form-data; boundary=B"

/-- The separator `b"--B"` for boundary `B`. -/
def sepB : List Nat := [45, 45, 66]

/-- A one-part body `--B<frag>--B--`. -/
def mkBody1 (f1 : List Nat) : List Nat := sepB ++ f1 ++ sepB ++ [45, 45]

/-- A two-part body `--B<frag1>--B<frag2>--B--`. -/
def mkBody2 (f1 f2 : List Nat) : List Nat :=
  sepB ++ f1 ++ sepB ++ f2 ++ sepB ++ [45, 45]

/-- Header line `Content-Disposition: form-data; name="<nm>"`. -/
def dispOf (nm : List Nat) : List Nat := lit1 ++ nm ++ [34]

/-- Header line
`Content-Disposition: form-data; name="<nm>"; filename="<fn>"`. -/
def dispFileOf (nm fn : List Nat) : List Nat :=
  lit1 ++ nm ++ [34] ++ lit2 ++ fn ++ [34]

/-- A form-field name (or filename) usable in the quoted attributes: a
non-empty string of scalar values without a double quote. -/
def nameOk (nm : List Nat) : Bool :=
  !nm.isEmpty && nm.all (fun c => (c != 34) && isScalar c)

/-! ### Basic list lemmas -/

theorem drop_len_append (l r : List Nat) : (l ++ r).drop l.length = r := by
  induction l with
  | nil => rfl
  | cons a t ih => simpa using ih

theorem isPrefixOf_self_append (l r : List Nat) :
    l.isPrefixOf (l ++ r) = true := by
  induction l with
  | nil => simp [List.isPrefixOf]
  | cons a t ih => simpa [List.isPrefixOf] using ih

theorem isPrefixOf_append_of_le (u v w : List Nat) (h : u.length ≤ v.length) :
    u.isPrefixOf (v ++ w) = u.isPrefixOf v := by
  induction u generalizing v with
  | nil => simp [List.isPrefixOf]
  | cons a u' ih =>
    cases v with
    | nil => simp at h
    | cons b v' =>
      simp only [List.length_cons, Nat.add_le_add_iff_right] at h
      simp [List.isPrefixOf, ih v' h]

theorem isPrefixOf_cons_of_ne (u : List Nat) (a b : Nat) (t : List Nat)
    (hne : a ≠ b) : (a :: t).isPrefixOf (b :: u) = false := by
  simp [List.isPrefixOf, hne]

theorem takeWhile_append_stop (p : Nat → Bool) (l : List Nat) (x : Nat)
    (r : List Nat) (h1 : ∀ c ∈ l, p c = true) (h2 : p x = false) :
    (l ++ x :: r).takeWhile p = l := by
  induction l with
  | nil => simp [List.takeWhile_cons, h2]
  | cons a t ih =>
    have ha : p a = true := h1 a (by simp)
    simp [List.takeWhile_cons, ha, ih (fun c hc => h1 c (by simp [hc]))]

theorem dropWhile_append_all (p : Nat → Bool) (l1 l2 : List Nat)
    (h : ∀ x ∈ l1, p x = true) :
    (l1 ++ l2).dropWhile p = l2.dropWhile p := by
  induction l1 with
  | nil => rfl
  | cons a t ih =>
    have ha : p a = true := h a (by simp)
    simp only [List.cons_append, List.dropWhile_cons, ha]
    exact ih (fun c hc => h c (by simp [hc]))

theorem head?_dropWhile_false (p : Nat → Bool) (l : List Nat) (x : Nat)
    (h : (l.dropWhile p).head? = some x) : p x = false := by
  induction l with
  | nil => simp at h
  | cons a t ih =>
    by_cases hpa : p a = true
    · simp only [List.dropWhile_cons, hpa] at h
      exact ih (by simpa using h)
    · simp only [List.dropWhile_cons, Bool.not_eq_true] at hpa
      simp only [List.dropWhile_cons, hpa] at h
      simp at h
      subst h; exact hpa

theorem getLast?_cons_ne (a : Nat) (l : List Nat) (h : l ≠ []) :
    (a :: l).getLast? = l.getLast? := by
  cases l with
  | nil => exact absurd rfl h
  | cons b t => simp [List.getLast?_cons_cons]

theorem getLast?_append_single (l : List Nat) (a : Nat) :
    (l ++ [a]).getLast? = some a := by
  induction l with
  | nil => rfl
  | cons x t ih =>
    rw [List.cons_append, getLast?_cons_ne x (t ++ [a]) (by simp)]
    exact ih

theorem head?_append_of_ne_nil (l1 l2 : List Nat) (h : l1 ≠ []) :
    (l1 ++ l2).head? = l1.head? := by
  cases l1 with
  | nil => exact absurd rfl h
  | cons a t => simp

theorem head?_reverse_eq_getLast? (l : List Nat) :
    l.reverse.head? = l.getLast? := by
  induction l with
  | nil => rfl
  | cons a t ih =>
    cases ht : t with
    | nil => simp
    | cons b t' =>
      rw [← ht]
      have htne : t ≠ [] := by simp [ht]
      rw [List.reverse_cons,
        head?_append_of_ne_nil t.reverse [a] (by simpa using htne), ih,
        getLast?_cons_ne a t htne]

theorem getLast?_reverse_eq_head? (l : List Nat) :
    l.reverse.getLast? = l.head? := by
  have := head?_reverse_eq_getLast? l.reverse
  rw [List.reverse_reverse] at this
  exact this.symm

theorem suffix_crlf_getLast (l : List Nat)
    (h : List.isSuffixOf [13, 10] l = true) : l.getLast? = some 10 := by
  unfold List.isSuffixOf at h
  cases hr : l.reverse with
  | nil => rw [hr] at h; simp [List.isPrefixOf] at h
  | cons x t =>
    rw [hr] at h
    have hx : x = 10 := by
      by_contra hne
      rw [show ([13, 10].reverse : List Nat) = 10 :: [13] from rfl,
        isPrefixOf_cons_of_ne t 10 x [13] (fun he => hne he.symm)] at h
      simp at h
    have := head?_reverse_eq_getLast? l
    rw [hr, hx] at this
    simpa using this.symm

/-! ### Occurrence predicates and splitting lemmas -/

theorem hasOccur_true_of (sep l : List Nat) (i : Nat) (hi : i < l.length + 1)
    (hp : sep.isPrefixOf (l.drop i) = true) : hasOccur sep l = true := by
  unfold hasOccur
  rw [List.any_eq_true]
  exact ⟨i, by simpa [List.mem_range] using hi, hp⟩

theorem hasOccur_false_at (sep l : List Nat) (i : Nat)
    (h : hasOccur sep l = false) (hi : i < l.length + 1) :
    sep.isPrefixOf (l.drop i) = false := by
  by_contra hc
  have hp : sep.isPrefixOf (l.drop i) = true := by
    cases hb : sep.isPrefixOf (l.drop i) with
    | true => rfl
    | false => exact absurd hb hc
  rw [hasOccur_true_of sep l i hi hp] at h
  cases h

theorem cleanChunk_false_at (sep a : List Nat) (i : Nat)
    (h : cleanChunk sep a = true) (hi : i < a.length) :
    sep.isPrefixOf ((a ++ sep).drop i) = false := by
  unfold cleanChunk at h
  rw [List.all_eq_true] at h
  have := h i (by simpa [List.mem_range] using hi)
  simpa using this

theorem cleanChunk_of_forall (sep a : List Nat)
    (h : ∀ i < a.length, sep.isPrefixOf ((a ++ sep).drop i) = false) :
    cleanChunk sep a = true := by
  unfold cleanChunk
  rw [List.all_eq_true]
  intro i hi
  rw [List.mem_range] at hi
  simp [h i hi]

theorem cleanChunk_cons_head (sep : List Nat) (x : Nat) (a : List Nat)
    (h : cleanChunk sep (x :: a) = true) :
    sep.isPrefixOf ((x :: a) ++ sep) = false := by
  have := cleanChunk_false_at sep (x :: a) 0 h (by simp)
  simpa using this

theorem cleanChunk_cons_tail (sep : List Nat) (x : Nat) (a : List Nat)
    (h : cleanChunk sep (x :: a) = true) : cleanChunk sep a = true := by
  apply cleanChunk_of_forall
  intro i hi
  have := cleanChunk_false_at sep (x :: a) (i + 1) h (by simp [hi])
  simpa using this

theorem hasOccur_cons_head (sep : List Nat) (x : Nat) (l : List Nat)
    (h : hasOccur sep (x :: l) = false) :
    sep.isPrefixOf (x :: l) = false := by
  have := hasOccur_false_at sep (x :: l) 0 h (by omega)
  simpa using this

theorem hasOccur_cons_tail (sep : List Nat) (x : Nat) (l : List Nat)
    (h : hasOccur sep (x :: l) = false) : hasOccur sep l = false := by
  by_contra hc
  have ht : hasOccur sep l = true := by
    cases hb : hasOccur sep l with
    | true => rfl
    | false => exact absurd hb hc
  unfold hasOccur at ht
  rw [List.any_eq_true] at ht
  obtain ⟨i, hmem, hp⟩ := ht
  rw [List.mem_range] at hmem
  have := hasOccur_false_at sep (x :: l) (i + 1) h (by simp; omega)
  rw [List.drop_succ_cons] at this
  rw [this] at hp
  cases hp

theorem splitOnSepAux_fuel_eq (s0 : Nat) (sr : List Nat) :
    ∀ (F G : Nat) (l : List Nat), l.length ≤ F → l.length ≤ G →
      splitOnSepAux s0 sr F l = splitOnSepAux s0 sr G l := by
  intro F
  induction F with
  | zero =>
    intro G l hF _
    have hl : l = [] := by
      cases l with
      | nil => rfl
      | cons a t => simp at hF
    subst hl
    cases G <;> rfl
  | succ F ih =>
    intro G l hF hG
    cases l with
    | nil => cases G <;> rfl
    | cons b bs =>
      cases G with
      | zero => simp at hG
      | succ G =>
        simp only [splitOnSepAux]
        simp only [List.length_cons] at hF hG
        have hd := List.length_drop sr.length bs
        rw [ih G (bs.drop sr.length) (by omega) (by omega)]
        rw [ih G bs (by omega) (by omega)]

theorem splitOnSepNE_cons (s0 b : Nat) (sr bs : List Nat) :
    splitOnSepNE s0 sr (b :: bs) =
      if (s0 :: sr).isPrefixOf (b :: bs) then
        [] :: splitOnSepNE s0 sr (bs.drop sr.length)
      else
        match splitOnSepNE s0 sr bs with
        | [] => [[b]]
        | x :: xs => (b :: x) :: xs := by
  unfold splitOnSepNE
  rw [List.length_cons]
  simp only [splitOnSepAux]
  rw [splitOnSepAux_fuel_eq s0 sr bs.length (bs.drop sr.length).length
    (bs.drop sr.length) (by have := List.length_drop sr.length bs; omega)
    le_rfl]

theorem split_step (s0 : Nat) (sr a rest : List Nat)
    (h : cleanChunk (s0 :: sr) a = true) :
    splitOnSepNE s0 sr (a ++ (s0 :: sr) ++ rest) =
      a :: splitOnSepNE s0 sr rest := by
  induction a with
  | nil =>
    simp only [List.nil_append, List.cons_append]
    rw [splitOnSepNE_cons]
    rw [if_pos]
    · rw [drop_len_append sr rest]
    · have := isPrefixOf_self_append (s0 :: sr) rest
      simpa [List.isPrefixOf] using this
  | cons x a' ih =>
    have hhead : (s0 :: sr).isPrefixOf ((x :: a') ++ (s0 :: sr)) = false :=
      cleanChunk_cons_head _ _ _ h
    have htail := cleanChunk_cons_tail _ _ _ h
    have hcond :
        (s0 :: sr).isPrefixOf (x :: (a' ++ (s0 :: sr) ++ rest)) = false := by
      have e : x :: (a' ++ (s0 :: sr) ++ rest) =
          ((x :: a') ++ (s0 :: sr)) ++ rest := by simp
      rw [e, isPrefixOf_append_of_le _ _ rest (by simp; omega)]
      exact hhead
    rw [List.cons_append, List.cons_append, splitOnSepNE_cons,
      if_neg (by rw [hcond]; simp), ih htail]

theorem split_noOccur (s0 : Nat) (sr l : List Nat)
    (h : hasOccur (s0 :: sr) l = false) : splitOnSepNE s0 sr l = [l] := by
  induction l with
  | nil => rfl
  | cons x l' ih =>
    have hhead := hasOccur_cons_head _ _ _ h
    have htail := hasOccur_cons_tail _ _ _ h
    rw [splitOnSepNE_cons, if_neg (by rw [hhead]; simp), ih htail]

theorem splitOnce_step (s0 : Nat) (sr a rest : List Nat)
    (h : cleanChunk (s0 :: sr) a = true) :
    splitOnce (s0 :: sr) (a ++ (s0 :: sr) ++ rest) = some (a, rest) := by
  induction a with
  | nil =>
    simp only [List.nil_append, List.cons_append]
    rw [splitOnce]
    rw [if_pos]
    · simp only [List.length_cons, List.drop_succ_cons]
      rw [drop_len_append sr rest]
    · have := isPrefixOf_self_append (s0 :: sr) rest
      simpa [List.isPrefixOf] using this
  | cons x a' ih =>
    have hhead : (s0 :: sr).isPrefixOf ((x :: a') ++ (s0 :: sr)) = false :=
      cleanChunk_cons_head _ _ _ h
    have htail := cleanChunk_cons_tail _ _ _ h
    have hcond :
        (s0 :: sr).isPrefixOf (x :: (a' ++ (s0 :: sr) ++ rest)) = false := by
      have e : x :: (a' ++ (s0 :: sr) ++ rest) =
          ((x :: a') ++ (s0 :: sr)) ++ rest := by simp
      rw [e, isPrefixOf_append_of_le _ _ rest (by simp; omega)]
      exact hhead
    rw [List.cons_append, List.cons_append, splitOnce,
      if_neg (by rw [hcond]; simp), ih htail]

theorem splitOnce_none (s0 : Nat) (sr l : List Nat)
    (h : hasOccur (s0 :: sr) l = false) : splitOnce (s0 :: sr) l = none := by
  induction l with
  | nil => rw [splitOnce]
  | cons x l' ih =>
    have hhead := hasOccur_cons_head _ _ _ h
    have htail := hasOccur_cons_tail _ _ _ h
    rw [splitOnce, if_neg (by rw [hhead]; simp), ih htail]


/-! ### UTF-8 encode/decode lemmas -/

theorem isScalar_ranges (n : Nat) (h : isScalar n = true) :
    n < 55296 ∨ (57344 ≤ n ∧ n < 1114112) := by
  unfold isScalar at h
  rcases (Bool.or_eq_true _ _).mp h with h1 | h2
  · exact Or.inl (of_decide_eq_true h1)
  · rcases (Bool.and_eq_true _ _).mp h2 with ⟨ha, hb⟩
    exact Or.inr ⟨of_decide_eq_true ha, of_decide_eq_true hb⟩

theorem utf8DecodeOne_one (n : Nat) (bs : List Nat) (h : n < 128) :
    utf8DecodeOne (n :: bs) = some (n, 1) := by
  simp only [utf8DecodeOne]
  rw [if_pos h]

theorem utf8DecodeOne_two (n : Nat) (bs : List Nat) (h1 : 128 ≤ n)
    (h2 : n < 2048) :
    utf8DecodeOne ((192 + n / 64) :: (128 + n % 64) :: bs) = some (n, 2) := by
  simp only [utf8DecodeOne]
  rw [if_neg (by omega), if_neg (by omega), if_pos (by omega),
    if_pos (by omega)]
  rw [show (192 + n / 64 - 192) * 64 + (128 + n % 64 - 128) = n from by omega]

theorem utf8DecodeOne_three (n : Nat) (bs : List Nat) (h1 : 2048 ≤ n)
    (h2 : n < 65536) (hs : isScalar n = true) :
    utf8DecodeOne
        ((224 + n / 4096) :: (128 + n / 64 % 64) :: (128 + n % 64) :: bs) =
      some (n, 3) := by
  have hsc := isScalar_ranges n hs
  simp only [utf8DecodeOne]
  rw [if_neg (by omega), if_neg (by omega), if_neg (by omega),
    if_pos (by omega)]
  rw [if_pos (by split_ifs <;> omega)]
  rw [show (224 + n / 4096 - 224) * 4096 + (128 + n / 64 % 64 - 128) * 64 +
      (128 + n % 64 - 128) = n from by omega]

theorem utf8DecodeOne_four (n : Nat) (bs : List Nat) (h1 : 65536 ≤ n)
    (h2 : n < 1114112) :
    utf8DecodeOne ((240 + n / 262144) :: (128 + n / 4096 % 64) ::
        (128 + n / 64 % 64) :: (128 + n % 64) :: bs) =
      some (n, 4) := by
  simp only [utf8DecodeOne]
  rw [if_neg (by omega), if_neg (by omega), if_neg (by omega),
    if_neg (by omega), if_pos (by omega)]
  rw [if_pos (by split_ifs <;> omega)]
  rw [show (240 + n / 262144 - 240) * 262144 + (128 + n / 4096 % 64 - 128) *
      4096 + (128 + n / 64 % 64 - 128) * 64 + (128 + n % 64 - 128) = n from by
    omega]

theorem utf8DecodeAux_fuel_eq :
    ∀ (F G : Nat) (l : List Nat), l.length ≤ F → l.length ≤ G →
      utf8DecodeAux F l = utf8DecodeAux G l := by
  intro F
  induction F with
  | zero =>
    intro G l hF _
    have hl : l = [] := by
      cases l with
      | nil => rfl
      | cons a t => simp at hF
    subst hl
    cases G <;> rfl
  | succ F ih =>
    intro G l hF hG
    cases l with
    | nil => cases G <;> rfl
    | cons b bs =>
      cases G with
      | zero => simp at hG
      | succ G =>
        simp only [utf8DecodeAux]
        cases ho : utf8DecodeOne (b :: bs) with
        | none => simp only [ho]
        | some ck =>
          obtain ⟨c, k⟩ := ck
          simp only [ho]
          simp only [List.length_cons] at hF hG
          have hd := List.length_drop (k - 1) bs
          rw [ih G (bs.drop (k - 1)) (by omega) (by omega)]

theorem utf8Decode_cons (b : Nat) (bs : List Nat) :
    utf8Decode (b :: bs) =
      match utf8DecodeOne (b :: bs) with
      | none => none
      | some (c, k) =>
        (utf8Decode (bs.drop (k - 1))).map (fun cs => c :: cs) := by
  unfold utf8Decode
  rw [List.length_cons]
  simp only [utf8DecodeAux]
  cases ho : utf8DecodeOne (b :: bs) with
  | none => simp only [ho]
  | some ck =>
    obtain ⟨c, k⟩ := ck
    simp only [ho]
    rw [utf8DecodeAux_fuel_eq bs.length (bs.drop (k - 1)).length
      (bs.drop (k - 1)) (by have := List.length_drop (k - 1) bs; omega)
      le_rfl]

theorem utf8Decode_cons_some (b : Nat) (bs : List Nat) (c k : Nat)
    (h : utf8DecodeOne (b :: bs) = some (c, k)) :
    utf8Decode (b :: bs) =
      (utf8Decode (bs.drop (k - 1))).map (fun cs => c :: cs) := by
  rw [utf8Decode_cons, h]

theorem utf8Decode_cons_none (b : Nat) (bs : List Nat)
    (h : utf8DecodeOne (b :: bs) = none) : utf8Decode (b :: bs) = none := by
  rw [utf8Decode_cons, h]

theorem utf8Decode_encodeChar (n : Nat) (h : isScalar n = true)
    (rest : List Nat) :
    utf8Decode (utf8EncodeChar n ++ rest) =
      (utf8Decode rest).map (fun cs => n :: cs) := by
  have hsc := isScalar_ranges n h
  by_cases h1 : n < 128
  · rw [show utf8EncodeChar n = [n] from by
      unfold utf8EncodeChar; rw [if_pos h1]]
    rw [List.singleton_append,
      utf8Decode_cons_some n rest n 1 (utf8DecodeOne_one n rest h1)]
    rfl
  · by_cases h2 : n < 2048
    · rw [show utf8EncodeChar n = [192 + n / 64, 128 + n % 64] from by
        unfold utf8EncodeChar; rw [if_neg h1, if_pos h2]]
      rw [List.cons_append, List.singleton_append,
        utf8Decode_cons_some _ _ n 2 (utf8DecodeOne_two n rest (by omega) h2)]
      rfl
    · by_cases h3 : n < 65536
      · rw [show utf8EncodeChar n =
            [224 + n / 4096, 128 + n / 64 % 64, 128 + n % 64] from by
          unfold utf8EncodeChar; rw [if_neg h1, if_neg h2, if_pos h3]]
        rw [List.cons_append, List.cons_append, List.singleton_append,
          utf8Decode_cons_some _ _ n 3
            (utf8DecodeOne_three n rest (by omega) h3 h)]
        rfl
      · rw [show utf8EncodeChar n =
            [240 + n / 262144, 128 + n / 4096 % 64, 128 + n / 64 % 64,
              128 + n % 64] from by
          unfold utf8EncodeChar; rw [if_neg h1, if_neg h2, if_neg h3]]
        rw [List.cons_append, List.cons_append, List.cons_append,
          List.singleton_append,
          utf8Decode_cons_some _ _ n 4
            (utf8DecodeOne_four n rest (by omega) (by omega))]
        rfl

theorem utf8Decode_utf8Encode (cs : List Nat) (h : isScalarStr cs = true) :
    utf8Decode (utf8Encode cs) = some cs := by
  induction cs with
  | nil => rfl
  | cons c cs' ih =>
    unfold isScalarStr at h
    rw [List.all_cons, Bool.and_eq_true] at h
    rw [utf8Encode, utf8Decode_encodeChar c h.1, ih h.2]
    rfl

theorem utf8Decode_eq_nil (bs : List Nat) (h : utf8Decode bs = some []) :
    bs = [] := by
  cases bs with
  | nil => rfl
  | cons b bs' =>
    exfalso
    rw [utf8Decode_cons] at h
    cases ho : utf8DecodeOne (b :: bs') with
    | none => rw [ho] at h; simp at h
    | some ck =>
      obtain ⟨c, k⟩ := ck
      rw [ho] at h
      simp only [Option.map_eq_some'] at h
      obtain ⟨a, _, ha⟩ := h
      cases ha

theorem utf8DecodeOne_lt128 (b : Nat) (bs : List Nat) (c k : Nat)
    (h : utf8DecodeOne (b :: bs) = some (c, k)) (hc : c < 128) :
    b = c ∧ k = 1 := by
  simp only [utf8DecodeOne] at h
  split_ifs at h <;> (try (split at h)) <;> (try (split_ifs at h)) <;>
    simp_all <;> omega

theorem getLast?_drop_of_ne_nil : ∀ (n : Nat) (l : List Nat),
    l.drop n ≠ [] → (l.drop n).getLast? = l.getLast? := by
  intro n
  induction n with
  | zero => intro l _; rfl
  | succ m ih =>
    intro l h
    cases l with
    | nil => simp at h
    | cons x t =>
      rw [List.drop_succ_cons] at h ⊢
      rw [ih t h]
      exact (getLast?_cons_ne x t (by
        intro hc
        rw [hc] at h
        simp at h)).symm

theorem utf8Decode_last_ascii_aux (N : Nat) :
    ∀ bs : List Nat, bs.length ≤ N → ∀ cs, utf8Decode bs = some cs →
      ∀ c, cs.getLast? = some c → c < 128 → bs.getLast? = some c := by
  induction N with
  | zero =>
    intro bs hb cs hd c hl _
    have hnil : bs = [] := by
      cases bs with
      | nil => rfl
      | cons x t => simp at hb
    subst hnil
    rw [show utf8Decode ([] : List Nat) = some [] from rfl] at hd
    have : cs = [] := by simpa using hd.symm
    subst this
    simp at hl
  | succ N ih =>
    intro bs hb cs hd c hl hc
    cases bs with
    | nil =>
      rw [show utf8Decode ([] : List Nat) = some [] from rfl] at hd
      have : cs = [] := by simpa using hd.symm
      subst this
      simp at hl
    | cons b bs' =>
      cases ho : utf8DecodeOne (b :: bs') with
      | none => rw [utf8Decode_cons_none _ _ ho] at hd; cases hd
      | some ck =>
        obtain ⟨c0, k⟩ := ck
        rw [utf8Decode_cons_some _ _ _ _ ho] at hd
        simp only [Option.map_eq_some'] at hd
        obtain ⟨cs', hd', hcs⟩ := hd
        subst hcs
        cases hcs' : cs' with
        | nil =>
          subst hcs'
          have htail : bs'.drop (k - 1) = [] := utf8Decode_eq_nil _ hd'
          have hc0 : c0 = c := by simpa using hl
          subst hc0
          obtain ⟨hb0, hk⟩ := utf8DecodeOne_lt128 b bs' c0 k ho hc
          subst hb0
          subst hk
          have : bs' = [] := by simpa using htail
          subst this
          rfl
        | cons d cs'' =>
          have hne : cs' ≠ [] := by simp [hcs']
          rw [getLast?_cons_ne c0 cs' hne] at hl
          have hlen : (bs'.drop (k - 1)).length ≤ N := by
            have := List.length_drop (k - 1) bs'
            simp only [List.length_cons] at hb
            omega
          have htl := ih (bs'.drop (k - 1)) hlen cs' hd' c hl hc
          have hdne : bs'.drop (k - 1) ≠ [] := by
            intro hcon
            rw [hcon, show utf8Decode ([] : List Nat) = some [] from rfl]
              at hd'
            have : cs' = [] := by simpa using hd'.symm
            exact hne this
          have hbne : bs' ≠ [] := by
            intro hcon
            rw [hcon] at hdne
            simp at hdne
          rw [getLast?_cons_ne b bs' hbne,
            ← getLast?_drop_of_ne_nil (k - 1) bs' hdne]
          exact htl

theorem utf8Decode_last_ascii (bs cs : List Nat) (hd : utf8Decode bs = some cs)
    (c : Nat) (hl : cs.getLast? = some c) (hc : c < 128) :
    bs.getLast? = some c :=
  utf8Decode_last_ascii_aux bs.length bs le_rfl cs hd c hl hc

/-! ### Trailing-CRLF stripping and dict lemmas -/

theorem rstrip_append (p q : List Nat) (h : ∀ b ∈ q, b = 13 ∨ b = 10) :
    rstripCRLF (p ++ q) = rstripCRLF p := by
  unfold rstripCRLF
  rw [List.reverse_append]
  rw [dropWhile_append_all _ _ _ (fun x hx => by
    rcases h x (List.mem_reverse.mp hx) with h' | h' <;> simp [h'])]

theorem rstrip_getLast (bs : List Nat) (b : Nat)
    (h : (rstripCRLF bs).getLast? = some b) : b ≠ 13 ∧ b ≠ 10 := by
  unfold rstripCRLF at h
  rw [getLast?_reverse_eq_head?] at h
  have := head?_dropWhile_false _ _ _ h
  constructor <;> intro hb <;> subst hb <;> simp at this

theorem endsWithCRLF_true_getLast (l : List Nat) (h : endsWithCRLF l = true) :
    l.getLast? = some 10 := by
  unfold endsWithCRLF at h
  exact suffix_crlf_getLast l h

theorem rstrip_noCRLF (bs : List Nat) :
    endsWithCRLF (rstripCRLF bs) = false := by
  by_contra hc
  have ht : endsWithCRLF (rstripCRLF bs) = true := by
    cases hb : endsWithCRLF (rstripCRLF bs) with
    | true => rfl
    | false => exact absurd hb hc
  have := endsWithCRLF_true_getLast _ ht
  exact (rstrip_getLast bs 10 this).2 rfl

theorem str_noCRLF (pb v : List Nat)
    (h : utf8Decode (rstripCRLF pb) = some v) : endsWithCRLF v = false := by
  by_contra hc
  have ht : endsWithCRLF v = true := by
    cases hb : endsWithCRLF v with
    | true => rfl
    | false => exact absurd hb hc
  have h10 := endsWithCRLF_true_getLast v ht
  have := utf8Decode_last_ascii _ _ h 10 h10 (by omega)
  exact (rstrip_getLast pb 10 this).2 rfl

theorem pySet_nil {β : Type} (k : List Nat) (v : β) :
    pySet [] k v = [(k, v)] := by
  unfold pySet
  simp

theorem pySet_single_overwrite {β : Type} (k : List Nat) (v w : β) :
    pySet [(k, v)] k w = [(k, w)] := by
  unfold pySet
  simp

theorem pySet_mem {β : Type} (d : List (List Nat × β)) (k : List Nat) (v : β)
    (n : List Nat) (w : β) (h : (n, w) ∈ pySet d k v) :
    (n, w) ∈ d ∨ w = v := by
  unfold pySet at h
  split_ifs at h
  · rw [List.mem_map] at h
    obtain ⟨p, hp, he⟩ := h
    by_cases hk : (p.1 == k) = true
    · rw [if_pos hk] at he
      right
      exact (Prod.mk.injEq _ _ _ _ ▸ he).2.symm
    · rw [if_neg hk] at he
      exact Or.inl (he ▸ hp)
  · rw [List.mem_append] at h
    rcases h with h | h
    · exact Or.inl h
    · right
      have : (n, w) = (k, v) := by simpa using h
      exact ((Prod.mk.injEq _ _ _ _).mp this).2

theorem pySet_length {β : Type} (d : List (List Nat × β)) (k : List Nat)
    (v : β) : (pySet d k v).length ≤ d.length + 1 := by
  unfold pySet
  split_ifs <;> simp

/-! ### Per-part processing lemmas -/

theorem processPart_skip_noSplit (f : List (List Nat × FieldValue))
    (part : List Nat) (h : splitOnce crlf2 part = none) :
    processPart f part = f := by
  unfold processPart
  rw [h]

theorem processPart_skip_badHdr (f : List (List Nat × FieldValue))
    (part hb pb : List Nat) (h1 : splitOnce crlf2 part = some (hb, pb))
    (h2 : utf8Decode hb = none) : processPart f part = f := by
  unfold processPart
  simp only [h1, h2]

theorem processPart_skip_noDisp (f : List (List Nat × FieldValue))
    (part hb pb ht : List Nat) (h1 : splitOnce crlf2 part = some (hb, pb))
    (h2 : utf8Decode hb = some ht) (h3 : searchDisp ht = none) :
    processPart f part = f := by
  unfold processPart
  simp only [h1, h2, h3]

theorem processPart_skip_badVal (f : List (List Nat × FieldValue))
    (part hb pb ht nm : List Nat) (h1 : splitOnce crlf2 part = some (hb, pb))
    (h2 : utf8Decode hb = some ht) (h3 : searchDisp ht = some (nm, none))
    (h4 : utf8Decode (rstripCRLF pb) = none) : processPart f part = f := by
  unfold processPart
  simp only [h1, h2, h3, h4]

theorem processPart_eval_file (f : List (List Nat × FieldValue))
    (part hb pb ht nm fn : List Nat)
    (h1 : splitOnce crlf2 part = some (hb, pb))
    (h2 : utf8Decode hb = some ht) (h3 : searchDisp ht = some (nm, some fn)) :
    processPart f part = pySet f nm (.file fn (rstripCRLF pb)) := by
  unfold processPart
  simp only [h1, h2, h3]

theorem processPart_eval_str (f : List (List Nat × FieldValue))
    (part hb pb ht nm v : List Nat)
    (h1 : splitOnce crlf2 part = some (hb, pb))
    (h2 : utf8Decode hb = some ht) (h3 : searchDisp ht = some (nm, none))
    (h4 : utf8Decode (rstripCRLF pb) = some v) :
    processPart f part = pySet f nm (.str v) := by
  unfold processPart
  simp only [h1, h2, h3, h4]

theorem processPart_length (f : List (List Nat × FieldValue))
    (part : List Nat) : (processPart f part).length ≤ f.length + 1 := by
  cases h1 : splitOnce crlf2 part with
  | none => rw [processPart_skip_noSplit f part h1]; omega
  | some hp =>
    obtain ⟨hb, pb⟩ := hp
    cases h2 : utf8Decode hb with
    | none => rw [processPart_skip_badHdr f part hb pb h1 h2]; omega
    | some ht =>
      cases h3 : searchDisp ht with
      | none => rw [processPart_skip_noDisp f part hb pb ht h1 h2 h3]; omega
      | some r =>
        obtain ⟨nm, fno⟩ := r
        cases fno with
        | some fn =>
          rw [processPart_eval_file f part hb pb ht nm fn h1 h2 h3]
          exact pySet_length f nm _
        | none =>
          cases h4 : utf8Decode (rstripCRLF pb) with
          | none =>
            rw [processPart_skip_badVal f part hb pb ht nm h1 h2 h3 h4]; omega
          | some v =>
            rw [processPart_eval_str f part hb pb ht nm v h1 h2 h3 h4]
            exact pySet_length f nm _

theorem processPart_mem (f : List (List Nat × FieldValue)) (part : List Nat)
    (n : List Nat) (v : FieldValue) (h : (n, v) ∈ processPart f part) :
    (n, v) ∈ f ∨ fieldNoCRLF v = true := by
  cases h1 : splitOnce crlf2 part with
  | none => rw [processPart_skip_noSplit f part h1] at h; exact Or.inl h
  | some hp =>
    obtain ⟨hb, pb⟩ := hp
    cases h2 : utf8Decode hb with
    | none => rw [processPart_skip_badHdr f part hb pb h1 h2] at h
              exact Or.inl h
    | some ht =>
      cases h3 : searchDisp ht with
      | none => rw [processPart_skip_noDisp f part hb pb ht h1 h2 h3] at h
                exact Or.inl h
      | some r =>
        obtain ⟨nm, fno⟩ := r
        cases fno with
        | some fn =>
          rw [processPart_eval_file f part hb pb ht nm fn h1 h2 h3] at h
          rcases pySet_mem _ _ _ _ _ h with h' | h'
          · exact Or.inl h'
          · subst h'
            right
            simp [fieldNoCRLF, rstrip_noCRLF]
        | none =>
          cases h4 : utf8Decode (rstripCRLF pb) with
          | none =>
            rw [processPart_skip_badVal f part hb pb ht nm h1 h2 h3 h4] at h
            exact Or.inl h
          | some w =>
            rw [processPart_eval_str f part hb pb ht nm w h1 h2 h3 h4] at h
            rcases pySet_mem _ _ _ _ _ h with h' | h'
            · exact Or.inl h'
            · subst h'
              right
              simp [fieldNoCRLF, str_noCRLF pb w h4]

theorem foldl_processPart_length (parts : List (List Nat)) :
    ∀ acc : List (List Nat × FieldValue),
      (parts.foldl processPart acc).length ≤ acc.length + parts.length := by
  induction parts with
  | nil => intro acc; simp
  | cons p ps ih =>
    intro acc
    rw [List.foldl_cons]
    have h1 := ih (processPart acc p)
    have h2 := processPart_length acc p
    simp only [List.length_cons]
    omega

theorem foldl_processPart_mem (parts : List (List Nat)) :
    ∀ (acc : List (List Nat × FieldValue)) (n : List Nat) (v : FieldValue),
      (n, v) ∈ parts.foldl processPart acc →
        (n, v) ∈ acc ∨ fieldNoCRLF v = true := by
  induction parts with
  | nil => intro acc n v h; exact Or.inl h
  | cons p ps ih =>
    intro acc n v h
    rw [List.foldl_cons] at h
    rcases ih _ _ _ h with h' | h'
    · exact processPart_mem _ _ _ _ h'
    · exact Or.inr h'

/-! ### Header attribute lemmas -/

theorem nameOk_ne_nil (nm : List Nat) (h : nameOk nm = true) : nm ≠ [] := by
  unfold nameOk at h
  rw [Bool.and_eq_true] at h
  intro hc
  subst hc
  simp at h

theorem nameOk_all (nm : List Nat) (h : nameOk nm = true) :
    ∀ c ∈ nm, c ≠ 34 ∧ isScalar c = true := by
  unfold nameOk at h
  rw [Bool.and_eq_true] at h
  intro c hc
  have := (List.all_eq_true.mp h.2) c hc
  rw [Bool.and_eq_true] at this
  exact ⟨by simpa using this.1, this.2⟩

theorem nameOk_scalar (nm : List Nat) (h : nameOk nm = true) :
    isScalarStr nm = true := by
  unfold isScalarStr
  rw [List.all_eq_true]
  exact fun c hc => (nameOk_all nm h c hc).2

theorem lit1_head : lit1 = 67 :: cp "ontent-Disposition: form-data; name=\"" :=
  rfl

theorem matchDispAt_ne_head (c : Nat) (cs : List Nat) (h : c ≠ 67) :
    matchDispAt (c :: cs) = none := by
  unfold matchDispAt
  have hp : lit1.isPrefixOf (c :: cs) = false := by
    rw [lit1_head]
    exact isPrefixOf_cons_of_ne cs 67 c _ (fun he => h he.symm)
  rw [if_neg (by rw [hp]; simp)]

theorem searchDisp_cons_of_none (c : Nat) (cs : List Nat)
    (h : matchDispAt (c :: cs) = none) :
    searchDisp (c :: cs) = searchDisp cs := by
  rw [searchDisp, h]

theorem searchDisp_of_matchAt (l : List Nat) (r : List Nat × Option (List Nat))
    (h : matchDispAt l = some r) : searchDisp l = some r := by
  cases l with
  | nil =>
    exfalso
    have hnone : matchDispAt ([] : List Nat) = none := rfl
    rw [hnone] at h
    cases h
  | cons c cs => rw [searchDisp, h]

theorem emptyFalse (nm : List Nat) (hne : nm ≠ []) : nm.isEmpty = false := by
  cases nm with
  | nil => exact absurd rfl hne
  | cons a t => rfl

theorem matchDispAt_dispOf (nm : List Nat) (hne : nm ≠ [])
    (h34 : ∀ c ∈ nm, c ≠ 34) : matchDispAt (dispOf nm) = some (nm, none) := by
  have htw : (nm ++ 34 :: ([] : List Nat)).takeWhile (fun c => c != 34) = nm :=
    takeWhile_append_stop _ nm 34 [] (fun c hc => by simpa using h34 c hc)
      (by simp)
  unfold dispOf
  rw [List.append_assoc]
  simp only [matchDispAt, isPrefixOf_self_append, drop_len_append, htw,
    emptyFalse nm hne, eq_self_iff_true, if_true, Bool.false_eq_true, if_false]
  rfl

theorem matchDispAt_dispFileOf (nm fn : List Nat) (hnmne : nm ≠ [])
    (hnm34 : ∀ c ∈ nm, c ≠ 34) (hfnne : fn ≠ [])
    (hfn34 : ∀ c ∈ fn, c ≠ 34) :
    matchDispAt (dispFileOf nm fn) = some (nm, some fn) := by
  have htw : (nm ++ 34 :: (lit2 ++ (fn ++ [34]))).takeWhile
      (fun c => c != 34) = nm :=
    takeWhile_append_stop _ nm 34 _ (fun c hc => by simpa using hnm34 c hc)
      (by simp)
  have htw2 : (fn ++ 34 :: ([] : List Nat)).takeWhile (fun c => c != 34) = fn :=
    takeWhile_append_stop _ fn 34 [] (fun c hc => by simpa using hfn34 c hc)
      (by simp)
  have hdr : (nm ++ 34 :: (lit2 ++ (fn ++ [34]))).drop nm.length =
      34 :: (lit2 ++ (fn ++ [34])) := drop_len_append _ _
  have hd1 : (34 :: (lit2 ++ (fn ++ [34]))).drop 1 = lit2 ++ (fn ++ [34]) :=
    rfl
  have hdfn : (fn ++ 34 :: ([] : List Nat)).drop fn.length = [34] :=
    drop_len_append _ _
  unfold dispFileOf
  rw [show lit1 ++ nm ++ [34] ++ lit2 ++ fn ++ [34] =
    lit1 ++ (nm ++ 34 :: (lit2 ++ (fn ++ [34]))) from by simp]
  simp only [matchDispAt, isPrefixOf_self_append, drop_len_append, htw, htw2,
    hdr, hd1, hdfn, emptyFalse nm hnmne, emptyFalse fn hfnne,
    eq_self_iff_true, if_true, Bool.false_eq_true, if_false]
  rfl

theorem searchDisp_crlf_dispOf (nm : List Nat) (h : nameOk nm = true) :
    searchDisp (13 :: 10 :: dispOf nm) = some (nm, none) := by
  rw [searchDisp_cons_of_none 13 _ (matchDispAt_ne_head 13 _ (by omega))]
  rw [searchDisp_cons_of_none 10 _ (matchDispAt_ne_head 10 _ (by omega))]
  exact searchDisp_of_matchAt _ _
    (matchDispAt_dispOf nm (nameOk_ne_nil nm h)
      (fun c hc => (nameOk_all nm h c hc).1))

theorem searchDisp_crlf_dispFileOf (nm fn : List Nat) (h1 : nameOk nm = true)
    (h2 : nameOk fn = true) :
    searchDisp (13 :: 10 :: dispFileOf nm fn) = some (nm, some fn) := by
  rw [searchDisp_cons_of_none 13 _ (matchDispAt_ne_head 13 _ (by omega))]
  rw [searchDisp_cons_of_none 10 _ (matchDispAt_ne_head 10 _ (by omega))]
  exact searchDisp_of_matchAt _ _
    (matchDispAt_dispFileOf nm fn (nameOk_ne_nil nm h1)
      (fun c hc => (nameOk_all nm h1 c hc).1) (nameOk_ne_nil fn h2)
      (fun c hc => (nameOk_all fn h2 c hc).1))

theorem searchBoundary_none_of (ct : List Nat)
    (h : hasOccur boundaryLit ct = false) : searchBoundary ct = none := by
  induction ct with
  | nil => rfl
  | cons c cs ih =>
    have hhead := hasOccur_cons_head _ _ _ h
    have htail := hasOccur_cons_tail _ _ _ h
    rw [searchBoundary, if_neg (by rw [hhead]; simp)]
    exact ih htail

/-! ### Evaluation of the parser on structured bodies -/

theorem parse_ok (body ct bnd : List Nat) (h : searchBoundary ct = some bnd) :
    parse_multipart_form_data body ct =
      Except.ok ((middleParts bnd body).foldl processPart []) := by
  unfold parse_multipart_form_data
  rw [h]

theorem searchBoundary_ctB : searchBoundary ctB = some [66] := rfl

theorem crlf2_cons : crlf2 = 13 :: [10, 13, 10] := rfl

theorem middle_one (f1 : List Nat) (h1 : cleanChunk sepB f1 = true) :
    middleParts [66] (mkBody1 f1) = [f1] := by
  unfold middleParts mkBody1
  rw [show (45 :: utf8Encode [66] : List Nat) = [45, 66] from rfl]
  rw [show (sepB ++ f1 ++ sepB ++ [45, 45] : List Nat) =
    ([] ++ (45 :: [45, 66])) ++ ((f1 ++ (45 :: [45, 66])) ++ [45, 45]) from by
    simp [sepB]]
  rw [split_step 45 [45, 66] [] _ rfl]
  rw [split_step 45 [45, 66] f1 _ h1]
  rw [split_noOccur 45 [45, 66] [45, 45] (by decide)]
  rfl

theorem middle_two (f1 f2 : List Nat) (h1 : cleanChunk sepB f1 = true)
    (h2 : cleanChunk sepB f2 = true) :
    middleParts [66] (mkBody2 f1 f2) = [f1, f2] := by
  unfold middleParts mkBody2
  rw [show (45 :: utf8Encode [66] : List Nat) = [45, 66] from rfl]
  rw [show (sepB ++ f1 ++ sepB ++ f2 ++ sepB ++ [45, 45] : List Nat) =
    ([] ++ (45 :: [45, 66])) ++ ((f1 ++ (45 :: [45, 66])) ++
      ((f2 ++ (45 :: [45, 66])) ++ [45, 45])) from by simp [sepB]]
  rw [split_step 45 [45, 66] [] _ rfl]
  rw [split_step 45 [45, 66] f1 _ h1]
  rw [split_step 45 [45, 66] f2 _ h2]
  rw [split_noOccur 45 [45, 66] [45, 45] (by decide)]
  rfl

theorem splitOnce_mkFrag (hdrCp payload : List Nat)
    (h : cleanChunk crlf2 (13 :: 10 :: utf8Encode hdrCp) = true) :
    splitOnce crlf2 (mkFrag hdrCp payload) =
      some (13 :: 10 :: utf8Encode hdrCp, payload ++ [13, 10]) := by
  unfold mkFrag
  rw [crlf2_cons]
  exact splitOnce_step 13 [10, 13, 10] _ _ h

theorem decode_hdr (hdrCp : List Nat) (h : isScalarStr hdrCp = true) :
    utf8Decode (13 :: 10 :: utf8Encode hdrCp) = some (13 :: 10 :: hdrCp) := by
  rw [show (13 :: 10 :: utf8Encode hdrCp : List Nat) =
    utf8Encode (13 :: 10 :: hdrCp) from rfl]
  rw [utf8Decode_utf8Encode (13 :: 10 :: hdrCp) (by
    unfold isScalarStr at h ⊢
    simp only [List.all_cons, Bool.and_eq_true]
    exact ⟨by decide, by decide, h⟩)]

theorem dispFileOf_scalar (nm fn : List Nat) (h1 : nameOk nm = true)
    (h2 : nameOk fn = true) : isScalarStr (dispFileOf nm fn) = true := by
  unfold dispFileOf isScalarStr
  simp only [List.all_append, Bool.and_eq_true]
  exact ⟨⟨⟨⟨⟨by decide, nameOk_scalar nm h1⟩, by decide⟩, by decide⟩,
    nameOk_scalar fn h2⟩, by decide⟩

theorem dispOf_scalar (nm : List Nat) (h1 : nameOk nm = true) :
    isScalarStr (dispOf nm) = true := by
  unfold dispOf isScalarStr
  simp only [List.all_append, Bool.and_eq_true]
  exact ⟨⟨by decide, nameOk_scalar nm h1⟩, by decide⟩

theorem processPart_frag_file (f : List (List Nat × FieldValue))
    (nm fn payload : List Nat) (h1 : nameOk nm = true) (h2 : nameOk fn = true)
    (hc : cleanChunk crlf2 (13 :: 10 :: utf8Encode (dispFileOf nm fn)) =
      true) :
    processPart f (mkFrag (dispFileOf nm fn) payload) =
      pySet f nm (.file fn (rstripCRLF payload)) := by
  rw [processPart_eval_file f _ _ _ _ nm fn
    (splitOnce_mkFrag (dispFileOf nm fn) payload hc)
    (decode_hdr (dispFileOf nm fn) (dispFileOf_scalar nm fn h1 h2))
    (searchDisp_crlf_dispFileOf nm fn h1 h2)]
  rw [rstrip_append payload [13, 10] (by intro b hb; simpa using hb)]

theorem processPart_frag_plain (f : List (List Nat × FieldValue))
    (nm v : List Nat) (h1 : nameOk nm = true) (hv : isScalarStr v = true)
    (hr : rstripCRLF (utf8Encode v) = utf8Encode v)
    (hc : cleanChunk crlf2 (13 :: 10 :: utf8Encode (dispOf nm)) = true) :
    processPart f (mkFrag (dispOf nm) (utf8Encode v)) =
      pySet f nm (.str v) := by
  rw [processPart_eval_str f _ _ _ _ nm v
    (splitOnce_mkFrag (dispOf nm) (utf8Encode v) hc)
    (decode_hdr (dispOf nm) (dispOf_scalar nm h1))
    (searchDisp_crlf_dispOf nm h1)
    (by
      rw [rstrip_append (utf8Encode v) [13, 10]
        (by intro b hb; simpa using hb), hr]
      exact utf8Decode_utf8Encode v hv)]

/-! ### Claim theorems -/

/-- C1: for every body and every content-type string that does not contain a
`boundary=` parameter, `parse_multipart_form_data` raises the hard
"missing boundary" error and returns no partial result. -/
theorem missing_boundary_hard_error (body ct : List Nat)
    (h : hasOccur boundaryLit ct = false) :
    parse_multipart_form_data body ct =
      Except.error (cp "Invalid Content-Type header: missing boundary") := by
  unfold parse_multipart_form_data
  rw [searchBoundary_none_of ct h]

theorem missing_boundary_hard_error_inst :
    parse_multipart_form_data [104, 105] (cp "multipart/form-data") =
      Except.error (cp "Invalid Content-Type header: missing boundary") :=
  missing_boundary_hard_error [104, 105] (cp "multipart/form-data")
    (by decide)

/-- C3: with a boundary present in the content type, the decode always
returns a mapping (never raises), and every per-part failure — missing
blank-line separator, header decode error, unmatched disposition pattern,
payload decode error — leaves the accumulated fields unchanged (the part is
skipped). -/
theorem decode_total_and_skips (body ct bnd : List Nat)
    (hs : isScalarStr ct = true) (h : searchBoundary ct = some bnd) :
    isOkE (parse_multipart_form_data body ct) = true ∧
    (∀ f part, splitOnce crlf2 part = none → processPart f part = f) ∧
    (∀ f part hb pb, splitOnce crlf2 part = some (hb, pb) →
      utf8Decode hb = none → processPart f part = f) ∧
    (∀ f part hb pb ht, splitOnce crlf2 part = some (hb, pb) →
      utf8Decode hb = some ht → searchDisp ht = none →
      processPart f part = f) ∧
    (∀ f part hb pb ht nm, splitOnce crlf2 part = some (hb, pb) →
      utf8Decode hb = some ht → searchDisp ht = some (nm, none) →
      utf8Decode (rstripCRLF pb) = none → processPart f part = f) := by
  refine ⟨?_, ?_, ?_, ?_, ?_⟩
  · rw [parse_ok body ct bnd h]; rfl
  · exact fun f part hh => processPart_skip_noSplit f part hh
  · exact fun f part hb pb hh1 hh2 =>
      processPart_skip_badHdr f part hb pb hh1 hh2
  · exact fun f part hb pb ht hh1 hh2 hh3 =>
      processPart_skip_noDisp f part hb pb ht hh1 hh2 hh3
  · exact fun f part hb pb ht nm hh1 hh2 hh3 hh4 =>
      processPart_skip_badVal f part hb pb ht nm hh1 hh2 hh3 hh4

theorem decode_total_and_skips_inst :
    isOkE (parse_multipart_form_data [0] (cp "boundary=B")) = true ∧
    processPart [] [99] = [] ∧
    processPart [] [255, 13, 10, 13, 10] = [] ∧
    processPart [] [13, 10, 13, 10, 120] = [] ∧
    processPart [] (utf8Encode (dispOf (cp "k")) ++ crlf2 ++ [255]) = [] :=
  ⟨(decode_total_and_skips [0] (cp "boundary=B") [66] (by decide)
      (by rfl)).1,
    (decode_total_and_skips [0] (cp "boundary=B") [66] (by decide)
      (by rfl)).2.1 [] [99] (by rfl),
    (decode_total_and_skips [0] (cp "boundary=B") [66] (by decide)
      (by rfl)).2.2.1 [] [255, 13, 10, 13, 10] [255] [] (by rfl) (by rfl),
    (decode_total_and_skips [0] (cp "boundary=B") [66] (by decide)
      (by rfl)).2.2.2.1 [] [13, 10, 13, 10, 120] [] [120] [] (by rfl)
      (by rfl) (by rfl),
    (decode_total_and_skips [0] (cp "boundary=B") [66] (by decide)
      (by rfl)).2.2.2.2 [] (utf8Encode (dispOf (cp "k")) ++ crlf2 ++ [255])
      (utf8Encode (dispOf (cp "k"))) [255] (dispOf (cp "k")) (cp "k")
      (by rfl) (by rfl) (by rfl) (by rfl)⟩

/-- C4: a body with one well-formed file part and one malformed part lacking
the blank-line separator decodes to exactly the well-formed part's entry; the
malformed part contributes nothing and the decode does not abort. -/
theorem malformed_part_skipped (p m : List Nat)
    (hg : cleanChunk sepB
      (mkFrag (dispFileOf (cp "file") (cp "a.mp3")) p) = true)
    (hm1 : cleanChunk sepB m = true) (hm2 : hasOccur crlf2 m = false) :
    parse_multipart_form_data
        (mkBody2 (mkFrag (dispFileOf (cp "file") (cp "a.mp3")) p) m) ctB =
      Except.ok [(cp "file", FieldValue.file (cp "a.mp3") (rstripCRLF p))] := by
  rw [parse_ok _ _ [66] searchBoundary_ctB]
  rw [middle_two _ _ hg hm1]
  rw [List.foldl_cons, List.foldl_cons, List.foldl_nil]
  rw [processPart_frag_file [] (cp "file") (cp "a.mp3") p (by decide)
    (by decide) (by decide)]
  rw [processPart_skip_noSplit _ m
    (by rw [crlf2_cons]; exact splitOnce_none 13 [10, 13, 10] m hm2)]
  rw [pySet_nil]

theorem malformed_part_skipped_inst :
    parse_multipart_form_data
        (mkBody2 (mkFrag (dispFileOf (cp "file") (cp "a.mp3")) [104, 105])
          [120]) ctB =
      Except.ok [(cp "file",
        FieldValue.file (cp "a.mp3") (rstripCRLF [104, 105]))] :=
  malformed_part_skipped [104, 105] [120] (by decide) (by decide) (by decide)

/-- C5: a well-formed part whose Content-Disposition carries
`filename="fn"` decodes to a structured file value with that filename and
the payload bytes as content; a well-formed part without a filename
attribute decodes to a plain string value. -/
theorem filename_structured_vs_plain :
    (∀ nm fn p, nameOk nm = true → nameOk fn = true →
      cleanChunk sepB (mkFrag (dispFileOf nm fn) p) = true →
      cleanChunk crlf2 (13 :: 10 :: utf8Encode (dispFileOf nm fn)) = true →
      rstripCRLF p = p →
      parse_multipart_form_data (mkBody1 (mkFrag (dispFileOf nm fn) p)) ctB =
        Except.ok [(nm, FieldValue.file fn p)]) ∧
    (∀ nm v, nameOk nm = true → isScalarStr v = true →
      cleanChunk sepB (mkFrag (dispOf nm) (utf8Encode v)) = true →
      cleanChunk crlf2 (13 :: 10 :: utf8Encode (dispOf nm)) = true →
      rstripCRLF (utf8Encode v) = utf8Encode v →
      parse_multipart_form_data
          (mkBody1 (mkFrag (dispOf nm) (utf8Encode v))) ctB =
        Except.ok [(nm, FieldValue.str v)]) := by
  constructor
  · intro nm fn p h1 h2 hb hc hr
    rw [parse_ok _ _ [66] searchBoundary_ctB, middle_one _ hb,
      List.foldl_cons, List.foldl_nil,
      processPart_frag_file [] nm fn p h1 h2 hc, hr, pySet_nil]
  · intro nm v h1 hv hb hc hr
    rw [parse_ok _ _ [66] searchBoundary_ctB, middle_one _ hb,
      List.foldl_cons, List.foldl_nil,
      processPart_frag_plain [] nm v h1 hv hr hc, pySet_nil]

theorem filename_structured_vs_plain_inst :
    parse_multipart_form_data
        (mkBody1 (mkFrag (dispFileOf (cp "file") (cp "a.mp3")) [104, 105]))
        ctB =
      Except.ok [(cp "file", FieldValue.file (cp "a.mp3") [104, 105])] ∧
    parse_multipart_form_data
        (mkBody1 (mkFrag (dispOf (cp "k")) (utf8Encode (cp "v")))) ctB =
      Except.ok [(cp "k", FieldValue.str (cp "v"))] :=
  ⟨filename_structured_vs_plain.1 (cp "file") (cp "a.mp3") [104, 105]
      (by decide) (by decide) (by decide) (by decide) (by decide),
    filename_structured_vs_plain.2 (cp "k") (cp "v") (by decide) (by decide)
      (by decide) (by decide) (by decide)⟩

/-- C6: with a boundary present, the decode returns the fold of the middle
fragments, whose size is at most the number of fragments (one entry at most
per part); the empty body yields the empty mapping as a valid, non-error
result. -/
theorem decode_size_bound (body ct bnd : List Nat)
    (hs : isScalarStr ct = true) (h : searchBoundary ct = some bnd) :
    parse_multipart_form_data body ct =
      Except.ok ((middleParts bnd body).foldl processPart []) ∧
    ((middleParts bnd body).foldl processPart []).length ≤
      (middleParts bnd body).length ∧
    parse_multipart_form_data [] ct = Except.ok [] := by
  refine ⟨parse_ok body ct bnd h, ?_, ?_⟩
  · have := foldl_processPart_length (middleParts bnd body) []
    simpa using this
  · have hmid : middleParts bnd [] = [] := rfl
    rw [parse_ok [] ct bnd h, hmid]
    rfl

theorem decode_size_bound_inst :
    parse_multipart_form_data [0] (cp "boundary=B") =
      Except.ok ((middleParts [66] [0]).foldl processPart []) ∧
    ((middleParts [66] [0]).foldl processPart []).length ≤
      (middleParts [66] [0]).length ∧
    parse_multipart_form_data [] (cp "boundary=B") = Except.ok [] :=
  decode_size_bound [0] (cp "boundary=B") [66] (by decide) (by rfl)

/-- C7: when two parts carry the same Content-Disposition name, the decoded
mapping holds the value of the last such part — a later duplicate silently
overwrites an earlier one. -/
theorem duplicate_name_last_wins (nm v1 v2 : List Nat) (hn : nameOk nm = true)
    (hv1 : isScalarStr v1 = true) (hv2 : isScalarStr v2 = true)
    (hr1 : rstripCRLF (utf8Encode v1) = utf8Encode v1)
    (hr2 : rstripCRLF (utf8Encode v2) = utf8Encode v2)
    (hb1 : cleanChunk sepB (mkFrag (dispOf nm) (utf8Encode v1)) = true)
    (hb2 : cleanChunk sepB (mkFrag (dispOf nm) (utf8Encode v2)) = true)
    (hc : cleanChunk crlf2 (13 :: 10 :: utf8Encode (dispOf nm)) = true) :
    parse_multipart_form_data
        (mkBody2 (mkFrag (dispOf nm) (utf8Encode v1))
          (mkFrag (dispOf nm) (utf8Encode v2))) ctB =
      Except.ok [(nm, FieldValue.str v2)] := by
  rw [parse_ok _ _ [66] searchBoundary_ctB, middle_two _ _ hb1 hb2,
    List.foldl_cons, List.foldl_cons, List.foldl_nil,
    processPart_frag_plain [] nm v1 hn hv1 hr1 hc, pySet_nil,
    processPart_frag_plain [(nm, FieldValue.str v1)] nm v2 hn hv2 hr2 hc,
    pySet_single_overwrite]

theorem duplicate_name_last_wins_inst :
    parse_multipart_form_data
        (mkBody2 (mkFrag (dispOf (cp "k")) (utf8Encode (cp "a")))
          (mkFrag (dispOf (cp "k")) (utf8Encode (cp "b")))) ctB =
      Except.ok [(cp "k", FieldValue.str (cp "b"))] :=
  duplicate_name_last_wins (cp "k") (cp "a") (cp "b") (by decide) (by decide)
    (by decide) (by decide) (by decide) (by decide) (by decide) (by decide)

/-- C8: every value stored in a decoded mapping — file content bytes or
plain string — never ends with a trailing CRLF sequence. -/
theorem no_trailing_crlf_in_values (body ct : List Nat)
    (fields : List (List Nat × FieldValue)) (nm : List Nat) (v : FieldValue)
    (hp : parse_multipart_form_data body ct = Except.ok fields)
    (hm : (nm, v) ∈ fields) : fieldNoCRLF v = true := by
  unfold parse_multipart_form_data at hp
  cases hy : searchBoundary ct with
  | none => rw [hy] at hp; simp at hp
  | some bnd =>
    rw [hy] at hp
    have hf : (middleParts bnd body).foldl processPart [] = fields := by
      simpa using hp
    rw [← hf] at hm
    rcases foldl_processPart_mem (middleParts bnd body) [] nm v hm with
      h' | h'
    · cases h'
    · exact h'

theorem no_trailing_crlf_in_values_inst :
    fieldNoCRLF (FieldValue.file (cp "a.mp3") [104, 105]) = true :=
  no_trailing_crlf_in_values
    (mkBody1 (mkFrag (dispFileOf (cp "file") (cp "a.mp3")) [104, 105])) ctB
    [(cp "file", FieldValue.file (cp "a.mp3") [104, 105])] (cp "file")
    (FieldValue.file (cp "a.mp3") [104, 105]) (by rfl) (by simp)

/-- C9: the trailing-newline removal strips every trailing CR or LF byte, in
any order and number — a payload genuinely ending in newline bytes loses all
of them from the decoded value, as the concrete decode shows. -/
theorem rstrip_all_trailing_newlines :
    (∀ p q, (∀ b ∈ q, b = 13 ∨ b = 10) →
      rstripCRLF (p ++ q) = rstripCRLF p) ∧
    parse_multipart_form_data
        (mkBody1 (mkFrag (dispFileOf (cp "file") (cp "a.mp3"))
          ([104, 105] ++ [10, 13, 13, 10, 10]))) ctB =
      Except.ok [(cp "file", FieldValue.file (cp "a.mp3") [104, 105])] := by
  constructor
  · exact rstrip_append
  · rfl

theorem rstrip_all_trailing_newlines_inst :
    rstripCRLF ([104] ++ [13, 10, 10]) = rstripCRLF [104] :=
  rstrip_all_trailing_newlines.1 [104] [13, 10, 10] (by decide)

/-- C10: a part whose Content-Disposition has an empty name attribute
matches no pattern and contributes no entry, whatever its payload; a part
with an empty filename attribute is treated as having no filename and
decodes as a plain string field. -/
theorem empty_name_and_empty_filename :
    (∀ p, cleanChunk sepB (mkFrag (dispOf []) p) = true →
      parse_multipart_form_data (mkBody1 (mkFrag (dispOf []) p)) ctB =
        Except.ok []) ∧
    (∀ v, isScalarStr v = true →
      rstripCRLF (utf8Encode v) = utf8Encode v →
      cleanChunk sepB (mkFrag (dispFileOf (cp "field") [])
        (utf8Encode v)) = true →
      parse_multipart_form_data
          (mkBody1 (mkFrag (dispFileOf (cp "field") []) (utf8Encode v)))
          ctB =
        Except.ok [(cp "field", FieldValue.str v)]) := by
  constructor
  · intro p hb
    rw [parse_ok _ _ [66] searchBoundary_ctB, middle_one _ hb,
      List.foldl_cons, List.foldl_nil]
    rw [processPart_skip_noDisp [] _ (13 :: 10 :: utf8Encode (dispOf []))
      (p ++ [13, 10]) (13 :: 10 :: dispOf [])
      (splitOnce_mkFrag (dispOf []) p (by decide))
      (decode_hdr (dispOf []) (by decide)) (by decide)]
  · intro v hv hr hb
    rw [parse_ok _ _ [66] searchBoundary_ctB, middle_one _ hb,
      List.foldl_cons, List.foldl_nil]
    rw [processPart_eval_str [] _ _ _ _ (cp "field") v
      (splitOnce_mkFrag (dispFileOf (cp "field") []) (utf8Encode v)
        (by decide))
      (decode_hdr (dispFileOf (cp "field") []) (by decide)) (by decide)
      (by
        rw [rstrip_append (utf8Encode v) [13, 10]
          (by intro b hb'; simpa using hb'), hr]
        exact utf8Decode_utf8Encode v hv)]
    rw [pySet_nil]

theorem empty_name_and_empty_filename_inst :
    parse_multipart_form_data (mkBody1 (mkFrag (dispOf []) [104])) ctB =
      Except.ok [] ∧
    parse_multipart_form_data
        (mkBody1 (mkFrag (dispFileOf (cp "field") [])
          (utf8Encode (cp "hi")))) ctB =
      Except.ok [(cp "field", FieldValue.str (cp "hi"))] :=
  ⟨empty_name_and_empty_filename.1 [104] (by decide),
    empty_name_and_empty_filename.2 (cp "hi") (by decide) (by decide)
      (by decide)⟩

/-- C2 counterexample: on an upload event whose content type lacks a
boundary — a MissingParameter condition — the upload handler responds with
status 500, which is not a client-error (4xx) status, contradicting the
claim that such failures surface as 4xx. -/
theorem upload_status_not_client_error :
    lambda_handler_upload
        ⟨[], [(cp "Content-Type", cp "multipart/form-data")]⟩ =
      UploadStep.response 500 UploadErr.missingBoundary ∧
    is4xx 500 = false := by
  constructor
  · rfl
  · rfl

/-- C2 (amended): the upload handler surfaces every MissingParameter
condition (missing content type, missing boundary, missing file field,
non-file field, empty content) with server-error status 500, not 4xx; the
speech handler does return client-error status 400 whenever a required
event key — `translated_text`, `bucket` or `output_file` — is missing,
naming the first missing key in the source's read order. -/
theorem handler_error_status_codes :
    (∀ (ev : UploadEvent) (s : Nat) (e : UploadErr),
      lambda_handler_upload ev = UploadStep.response s e → s = 500) ∧
    (∀ d : List (List Nat × List Nat),
      pyGet d (cp "translated_text") = none →
      lambda_handler_polly d =
        PollyStep.response 400 (cp "translated_text")) ∧
    (∀ (d : List (List Nat × List Nat)) (v : List Nat),
      pyGet d (cp "translated_text") = some v →
      pyGet d (cp "bucket") = none →
      lambda_handler_polly d = PollyStep.response 400 (cp "bucket")) ∧
    (∀ (d : List (List Nat × List Nat)) (v w : List Nat),
      pyGet d (cp "translated_text") = some v →
      pyGet d (cp "bucket") = some w →
      pyGet d (cp "output_file") = none →
      lambda_handler_polly d =
        PollyStep.response 400 (cp "output_file")) := by
  refine ⟨?_, ?_, ?_, ?_⟩
  · intro ev s e h
    unfold lambda_handler_upload at h
    repeat' split at h
    all_goals
      first
        | (injection h with h1 h2; exact h1.symm)
        | cases h
  · intro d h
    unfold lambda_handler_polly
    rw [h]
  · intro d v h1 h2
    unfold lambda_handler_polly
    simp only [h1, h2]
  · intro d v w h1 h2 h3
    unfold lambda_handler_polly
    simp only [h1, h2, h3]

theorem handler_error_status_codes_inst :
    (500 : Nat) = 500 ∧
    lambda_handler_polly [] =
      PollyStep.response 400 (cp "translated_text") ∧
    lambda_handler_polly [(cp "translated_text", cp "x")] =
      PollyStep.response 400 (cp "bucket") ∧
    lambda_handler_polly
        [(cp "translated_text", cp "x"), (cp "bucket", cp "b")] =
      PollyStep.response 400 (cp "output_file") :=
  ⟨handler_error_status_codes.1
      ⟨[], [(cp "Content-Type", cp "multipart/form-data")]⟩ 500
      UploadErr.missingBoundary (by rfl),
    handler_error_status_codes.2.1 [] (by rfl),
    handler_error_status_codes.2.2.1 [(cp "translated_text", cp "x")]
      (cp "x") (by rfl) (by rfl),
    handler_error_status_codes.2.2.2
      [(cp "translated_text", cp "x"), (cp "bucket", cp "b")] (cp "x")
      (cp "b") (by rfl) (by rfl) (by rfl)⟩
